import Mathlib

/-!
Verification development for the tap_pipefy extractor
(`src/tap_pipefy/__init__.py`).

The Python module is shallowly embedded: JSON values become the inductive
`JVal`; Python dicts become ordered association lists with Python's
assignment semantics (`dictInsert` replaces the value at an existing key
in place, otherwise appends); code that can raise (`KeyError`,
`AttributeError`, `TypeError`, parse errors) returns `Except String`.
The cursor-pagination loops (`get_cards`, `get_table_records`) are
embedded as fuel-indexed iterations over an oracle giving the JSON
response to the n-th HTTP request.
-/

/-- JSON values as returned by the GraphQL API and manipulated by the tap.
Object keys are modelled as strings (GraphQL field ids are strings). -/
inductive JVal where
  | null
  | bool (b : Bool)
  | num (n : Int)
  | str (s : String)
  | arr (elems : List JVal)
  | obj (fields : List (String × JVal))

/-- Python truthiness (`if x:`) for the values `JVal` can take. -/
def pyTruthy : JVal → Bool
  | JVal.null => false
  | JVal.bool b => b
  | JVal.num n => n != 0
  | JVal.str s => s.length != 0
  | JVal.arr xs => !xs.isEmpty
  | JVal.obj kvs => !kvs.isEmpty

/-- Lookup in an ordered association list (Python `d[k]` / `d.get(k)`
upto the found/missing distinction): first binding wins, which is the
only binding for lists built with `dictInsert`. -/
def dget {β : Type} : List (String × β) → String → Option β
  | [], _ => none
  | (k2, v) :: rest, k => if k2 = k then some v else dget rest k

/-- Python `d.get(k, dflt)`. -/
def dgetD {β : Type} (d : List (String × β)) (k : String) (dflt : β) : β :=
  (dget d k).getD dflt

/-- Python `d[k] = v` on a dict: replace the value at an existing key in
place, otherwise append the new binding at the end. -/
def dictInsert {β : Type} : List (String × β) → String → β → List (String × β)
  | [], k, v => [(k, v)]
  | (k2, v2) :: rest, k, v =>
      if k2 = k then (k, v) :: rest else (k2, v2) :: dictInsert rest k v

/-- Python `d.pop(k, dflt)`: return the value at `k` (or the default) and
the dict with the binding removed. -/
def dpop {β : Type} : List (String × β) → String → β → β × List (String × β)
  | [], _, dflt => (dflt, [])
  | (k2, v2) :: rest, k, dflt =>
      if k2 = k then (v2, rest)
      else
        let r := dpop rest k dflt
        (r.1, (k2, v2) :: r.2)

/-- Python `d2.update(d1)`: assign every binding of `d1` into `d2` in order. -/
def dupdate {β : Type} (d2 d1 : List (String × β)) : List (String × β) :=
  d1.foldl (fun acc kv => dictInsert acc kv.1 kv.2) d2

/-- Last binding for a key produced by a sequence of Python dict
assignments: the rightmost element of the list whose key matches. -/
def lastMatch {α : Type} (key : α → String) (k : String) : List α → Option α
  | [] => none
  | x :: xs =>
      match lastMatch key k xs with
      | some y => some y
      | none => if key x = k then some x else none

theorem dget_dictInsert_self {β : Type} :
    ∀ (d : List (String × β)) (k : String) (v : β),
      dget (dictInsert d k v) k = some v := by
  intro d k v
  induction d with
  | nil => simp [dictInsert, dget]
  | cons hd tl ih =>
      by_cases h : hd.1 = k
      · simp [dictInsert, h, dget]
      · simp [dictInsert, h, dget, ih]

theorem dget_dictInsert_ne {β : Type} :
    ∀ (d : List (String × β)) (k k2 : String) (v : β), k ≠ k2 →
      dget (dictInsert d k v) k2 = dget d k2 := by
  intro d k k2 v hne
  induction d with
  | nil => simp [dictInsert, dget, hne]
  | cons hd tl ih =>
      obtain ⟨k1, v1⟩ := hd
      by_cases h : k1 = k
      · subst h
        simp [dictInsert, dget, hne]
      · simp [dictInsert, h, dget, ih]

/-- Folding Python dict assignments over a list: the lookup of `k` in the
result is the value of the last list element whose key is `k`, falling
back to the initial dict. -/
theorem dget_foldl_dictInsert {α β : Type} (key : α → String) (val : α → β) :
    ∀ (xs : List α) (d0 : List (String × β)) (k : String),
      dget (xs.foldl (fun d x => dictInsert d (key x) (val x)) d0) k
        = match lastMatch key k xs with
          | some x => some (val x)
          | none => dget d0 k := by
  intro xs
  induction xs with
  | nil => intro d0 k; simp [lastMatch]
  | cons x xs ih =>
      intro d0 k
      simp only [List.foldl_cons]
      rw [ih]
      cases hm : lastMatch key k xs with
      | some y => simp [lastMatch, hm]
      | none =>
          by_cases hk : key x = k
          · simp [lastMatch, hm, hk, hk ▸ dget_dictInsert_self d0 (key x) (val x)]
          · simp [lastMatch, hm, hk, dget_dictInsert_ne d0 (key x) k (val x) hk]

theorem lastMatch_eq_none_of_not_mem {α : Type} (key : α → String) (k : String) :
    ∀ (xs : List α), k ∉ xs.map key → lastMatch key k xs = none := by
  intro xs
  induction xs with
  | nil => intro _; rfl
  | cons x xs ih =>
      intro h
      simp only [List.map_cons, List.mem_cons] at h
      push_neg at h
      simp [lastMatch, ih h.2, Ne.symm h.1]

/- ----------------------------------------------------------------------
Field definitions and the card-schema field collection
(`get_dynamic_streams`, lines 536-548 of the source).
---------------------------------------------------------------------- -/

/-- A custom field definition as returned by the organization query
(`{id, label, type, required, is_multiple}`); only these attributes are
read by the schema deriver. -/
structure FieldDef where
  id : String
  label : String
  type : String
  required : Bool
  is_multiple : Bool
deriving DecidableEq, Repr

/-- A pipe phase: only its `fields` list is used by the field collection. -/
structure Phase where
  fields : List FieldDef
deriving DecidableEq, Repr

/-- A pipe: `start_form_fields` plus its phases. -/
structure Pipe where
  start_form_fields : List FieldDef
  phases : List Phase
deriving DecidableEq, Repr

/-- The per-pipe body of the collection loop in `get_dynamic_streams`:
`all_fields = pipe.pop("start_form_fields", [])`, then every phase's
fields are appended in phase order. -/
def pipeFields (p : Pipe) : List FieldDef :=
  p.phases.foldl (fun acc ph => acc ++ ph.fields) p.start_form_fields

/-- Value of the variable `all_fields` after the `for pipe in pipes` loop.
The source rebinds `all_fields` at the top of each iteration, so after the
loop it holds only the last pipe's fields; with no pipes the variable was
never assigned (`NameError` in Python), modelled as `none`. -/
def all_fields_after_loop (pipes : List Pipe) : Option (List FieldDef) :=
  pipes.foldl (fun _ p => some (pipeFields p)) none

/-- The dict comprehension `{field["id"]: field for field in all_fields}`. -/
def unique_fields (fs : List FieldDef) : List (String × FieldDef) :=
  fs.foldl (fun d f => dictInsert d f.id f) []

/-- The field dictionary that `get_dynamic_streams` derives the dynamic
cards schema from. -/
def unique_fields_of_pipes (pipes : List Pipe) : Option (List (String × FieldDef)) :=
  (all_fields_after_loop pipes).map unique_fields

/-- Modelled from the spec's words, for comparison with the source: the
concatenation of every pipe's start-form fields then each phase's fields
in phase order, across all pipes. -/
def spec_concat_fields (pipes : List Pipe) : List FieldDef :=
  pipes.foldl (fun acc p => acc ++ pipeFields p) []

/-- Modelled from the spec's words: the first-seen definition for a field
id in a field list. -/
def spec_first_seen (fs : List FieldDef) (k : String) : Option FieldDef :=
  fs.find? (fun f => f.id == k)

/- Concrete pipes exhibiting the divergence for C1. -/

def exFieldG : FieldDef := ⟨"g", "G label", "short_text", true, false⟩
def exFieldA : FieldDef := ⟨"f", "A label", "short_text", true, false⟩
def exFieldB : FieldDef := ⟨"f", "B label", "currency", false, false⟩
def exFieldC : FieldDef := ⟨"f", "C label", "date", false, true⟩

def exPipes : List Pipe :=
  [⟨[exFieldG, exFieldA], []⟩, ⟨[exFieldB], [⟨[exFieldC]⟩]⟩]

/-- C1 counterexample: over `exPipes` the concatenated field definitions
contain the id `"f"` three times, so the claim's hypothesis holds and the
claim predicts the first-seen definition `exFieldA` is kept and `"g"` is
present; the code keeps `exFieldC` (the last-seen definition of the last
pipe) and drops `"g"` entirely. -/
theorem c1_first_seen_counterexample :
    ((spec_concat_fields exPipes).filter (fun f => f.id == "f")).length = 3 ∧
    spec_first_seen (spec_concat_fields exPipes) "f" = some exFieldA ∧
    unique_fields_of_pipes exPipes = some [("f", exFieldC)] ∧
    exFieldC ≠ exFieldA ∧
    (unique_fields_of_pipes exPipes).map (fun d => dget d "g") = some none := by
  refine ⟨by decide, by decide, by decide, by decide, by decide⟩

/-- C1 amended: the card-schema field collection keeps only the last
pipe's fields (start-form fields, then each phase's fields in phase
order), and within that list the dict comprehension keeps the last-seen
definition for each field id — later duplicates silently supersede
earlier ones, and every earlier pipe's fields are discarded. -/
theorem c1_last_seen_wins :
    (∀ (pipes : List Pipe),
        all_fields_after_loop pipes = (pipes.getLast?).map pipeFields) ∧
    (∀ (fs : List FieldDef) (k : String),
        dget (unique_fields fs) k = lastMatch FieldDef.id k fs) := by
  constructor
  · intro pipes
    induction pipes with
    | nil => rfl
    | cons p rest ih =>
        cases rest with
        | nil => rfl
        | cons q rest2 =>
            have step : all_fields_after_loop (p :: q :: rest2)
                = all_fields_after_loop (q :: rest2) := by
              simp [all_fields_after_loop]
            rw [step, ih, List.getLast?_cons_cons]
  · intro fs k
    have h := dget_foldl_dictInsert FieldDef.id (fun f => f) fs [] k
    unfold unique_fields
    rw [h]
    cases lastMatch FieldDef.id k fs <;> simp [dget]

/- ----------------------------------------------------------------------
Schema derivation (`append_property_schema`, lines 464-487) and
schema merging (`combine_schemas`, lines 520-523).
---------------------------------------------------------------------- -/

/-- The fixed type vocabularies of the source (lines 213-218). -/
def NUMERIC_TYPES : List String := ["currency", "number"]

def INTEGER_TYPES : List String := ["id"]

def DATE_TYPES : List String := ["date", "datetime", "due_date"]

def STRING_TYPES : List String :=
  ["cnpj", "cpf", "email", "phone", "radio_horizontal", "radio_vertical",
   "select", "short_text", "long_text", "label_select", "statement", "time"]

/-- One derived property: the dict
`{"inclusion": "automatic", "type": [...], "format": ...?}`. -/
structure PropertySchema where
  inclusion : String
  type : List String
  format : Option String
deriving DecidableEq, Repr

/-- A stream schema under construction:
`{"type": "object", "properties": {...}, "required": [...]}`. -/
structure StreamSchema where
  properties : List (String × PropertySchema)
  required : List String
deriving DecidableEq, Repr

/-- Direct embedding of `append_property_schema(schema, field)`. -/
def append_property_schema (schema : StreamSchema) (field : FieldDef) : StreamSchema :=
  let property_type : List String := []
  let required2 :=
    if field.required then schema.required ++ [field.id] else schema.required
  let property_type :=
    if field.required then property_type else property_type ++ ["null"]
  let property_type :=
    if (STRING_TYPES.contains field.type || DATE_TYPES.contains field.type) || field.is_multiple
    then property_type ++ ["string"] else property_type
  let fmt : Option String :=
    if DATE_TYPES.contains field.type then some "date-time" else none
  let property_type :=
    if NUMERIC_TYPES.contains field.type then property_type ++ ["number"] else property_type
  let property_type :=
    if INTEGER_TYPES.contains field.type || field.type == "integer"
    then property_type ++ ["integer"] else property_type
  ⟨dictInsert schema.properties field.id ⟨"automatic", property_type, fmt⟩, required2⟩

/-- C7: per-field schema derivation applies each value-kind rule
independently and unions all applicable kinds, with `"null"` first when
the field is not required; `required=true` adds the field id to the
schema's required set instead; string-or-date types or `is_multiple` add
`"string"`; date types additionally set the date-time format flag;
`currency`/`number` add `"number"`; `id` or `"integer"` add `"integer"`. -/
theorem c7_field_schema_rules (schema : StreamSchema) (field : FieldDef) :
    append_property_schema schema field =
      ⟨dictInsert schema.properties field.id
        ⟨"automatic",
         (if field.required then [] else ["null"])
           ++ (if (STRING_TYPES.contains field.type || DATE_TYPES.contains field.type) || field.is_multiple
               then ["string"] else [])
           ++ (if NUMERIC_TYPES.contains field.type then ["number"] else [])
           ++ (if INTEGER_TYPES.contains field.type || field.type == "integer"
               then ["integer"] else []),
         if DATE_TYPES.contains field.type then some "date-time" else none⟩,
       if field.required then schema.required ++ [field.id] else schema.required⟩ ∧
    (∀ ps : PropertySchema,
      dget (append_property_schema schema field).properties field.id = some ps →
        (("null" ∈ ps.type ↔ field.required = false) ∧
         (ps.type.head? = some "null" ↔ field.required = false) ∧
         ("string" ∈ ps.type ↔
            ((STRING_TYPES.contains field.type || DATE_TYPES.contains field.type)
              || field.is_multiple) = true) ∧
         (ps.format = some "date-time" ↔ DATE_TYPES.contains field.type = true) ∧
         ("number" ∈ ps.type ↔ NUMERIC_TYPES.contains field.type = true) ∧
         ("integer" ∈ ps.type ↔
            (INTEGER_TYPES.contains field.type || field.type == "integer") = true))) ∧
    (field.id ∈ (append_property_schema schema field).required ↔
      (field.required = true ∨ field.id ∈ schema.required)) := by
  have heq : append_property_schema schema field =
      ⟨dictInsert schema.properties field.id
        ⟨"automatic",
         (if field.required then [] else ["null"])
           ++ (if (STRING_TYPES.contains field.type || DATE_TYPES.contains field.type) || field.is_multiple
               then ["string"] else [])
           ++ (if NUMERIC_TYPES.contains field.type then ["number"] else [])
           ++ (if INTEGER_TYPES.contains field.type || field.type == "integer"
               then ["integer"] else []),
         if DATE_TYPES.contains field.type then some "date-time" else none⟩,
       if field.required then schema.required ++ [field.id] else schema.required⟩ := by
    cases hr : field.required <;>
      cases h1 : (STRING_TYPES.contains field.type || DATE_TYPES.contains field.type) || field.is_multiple <;>
      cases h2 : DATE_TYPES.contains field.type <;>
      cases h3 : NUMERIC_TYPES.contains field.type <;>
      cases h4 : INTEGER_TYPES.contains field.type || field.type == "integer" <;>
      simp_all [append_property_schema]
  refine ⟨heq, ?_, ?_⟩
  · intro ps hps
    rw [heq] at hps
    rw [dget_dictInsert_self] at hps
    cases hps
    cases hr : field.required <;>
      cases h1 : (STRING_TYPES.contains field.type || DATE_TYPES.contains field.type) || field.is_multiple <;>
      cases h2 : DATE_TYPES.contains field.type <;>
      cases h3 : NUMERIC_TYPES.contains field.type <;>
      cases h4 : INTEGER_TYPES.contains field.type || field.type == "integer" <;>
      simp_all
  · cases hr : field.required <;> simp [append_property_schema, hr]

/-- Direct embedding of `combine_schemas(schema1, schema2)`:
`schema2["properties"].update(schema1["properties"])` and return `schema2`. -/
def combine_schemas (schema1 schema2 : StreamSchema) : StreamSchema :=
  ⟨dupdate schema2.properties schema1.properties, schema2.required⟩

theorem lastMatch_of_dget_nodup {β : Type} :
    ∀ (d : List (String × β)) (k : String) (v : β),
      (d.map Prod.fst).Nodup → dget d k = some v →
        lastMatch Prod.fst k d = some (k, v) := by
  intro d
  induction d with
  | nil => intro k v _ h; simp [dget] at h
  | cons hd tl ih =>
      intro k v hnd hget
      obtain ⟨k1, v1⟩ := hd
      simp only [List.map_cons, List.nodup_cons] at hnd
      by_cases hk : k1 = k
      · subst hk
        simp only [dget, if_true, eq_self_iff_true, Option.some.injEq] at hget
        subst hget
        have : lastMatch Prod.fst k1 tl = none :=
          lastMatch_eq_none_of_not_mem Prod.fst k1 tl hnd.1
        simp [lastMatch, this]
      · simp only [dget, if_neg hk] at hget
        have := ih k v hnd.2 hget
        simp [lastMatch, this]

/-- C8: in the combined cards schema, a property name declared in the
static schema (`schema1`) always maps to the statically-declared
property: the dynamically-derived property of the same name never
overwrites it. -/
theorem c8_static_precedence (schema1 schema2 : StreamSchema) (name : String)
    (ps : PropertySchema)
    (hnd : (schema1.properties.map Prod.fst).Nodup)
    (hstat : dget schema1.properties name = some ps) :
    dget (combine_schemas schema1 schema2).properties name = some ps := by
  unfold combine_schemas dupdate
  have h := dget_foldl_dictInsert (Prod.fst (β := PropertySchema)) Prod.snd
      schema1.properties schema2.properties name
  simp only []
  rw [h, lastMatch_of_dget_nodup schema1.properties name ps hnd hstat]

/-- Closed instantiation of `c8_static_precedence` at a concrete static
and dynamic schema that share the property name `"title"`. -/
theorem c8_static_precedence_witness :
    dget (combine_schemas
        ⟨[("title", ⟨"automatic", ["string"], none⟩)], []⟩
        ⟨[("title", ⟨"automatic", ["null", "number"], none⟩)], []⟩).properties "title"
      = some ⟨"automatic", ["string"], none⟩ :=
  c8_static_precedence
    ⟨[("title", ⟨"automatic", ["string"], none⟩)], []⟩
    ⟨[("title", ⟨"automatic", ["null", "number"], none⟩)], []⟩
    "title" ⟨"automatic", ["string"], none⟩ (by decide) (by decide)

/- ----------------------------------------------------------------------
Response access primitives and the pagination loops
(`get_organization` lines 319-327, `get_cards` lines 342-364,
`process_table_record` lines 367-374, `get_table_records` lines 377-399).
---------------------------------------------------------------------- -/

/-- Python `v.get(k, dflt)`: defined on dicts, `AttributeError` on any
other value (in particular on `None`). -/
def pyGet (v : JVal) (k : String) (dflt : JVal) : Except String JVal :=
  match v with
  | JVal.obj kvs => Except.ok (dgetD kvs k dflt)
  | _ => Except.error "AttributeError"

/-- Python `kvs[k]` on a dict: `KeyError` when the key is missing. -/
def pyIndexL (kvs : List (String × JVal)) (k : String) : Except String JVal :=
  match dget kvs k with
  | some x => Except.ok x
  | none => Except.error "KeyError"

/-- Python `v[k]`: subscription of a JSON value by a string key. -/
def pyIndex (v : JVal) (k : String) : Except String JVal :=
  match v with
  | JVal.obj kvs => pyIndexL kvs k
  | _ => Except.error "TypeError"

def asArr : JVal → Except String (List JVal)
  | JVal.arr xs => Except.ok xs
  | _ => Except.error "TypeError"

def asObj : JVal → Except String (List (String × JVal))
  | JVal.obj kvs => Except.ok kvs
  | _ => Except.error "TypeError"

def asStr : JVal → Except String String
  | JVal.str s => Except.ok s
  | _ => Except.error "TypeError"

/-- Map a fallible function over a list, stopping at the first error (the
behavior of a Python comprehension whose body may raise). -/
def mapExcept {α β : Type} (f : α → Except String β) : List α → Except String (List β)
  | [] => Except.ok []
  | x :: xs =>
      match f x with
      | Except.error e => Except.error e
      | Except.ok y =>
          match mapExcept f xs with
          | Except.error e => Except.error e
          | Except.ok ys => Except.ok (y :: ys)

/-- Embedding of `get_organization(organization_id)` as a function of the
transport's response: `resp.get("data", None)` followed by
`data.get("organization", {})` — note the `None` default, so an empty
response object makes the second `.get` raise `AttributeError`. -/
def get_organization (resp : JVal) : Except String JVal := do
  let data ← pyGet resp "data" JVal.null
  pyGet data "organization" (JVal.obj [])

/-- One iteration body of the pagination loops: extract the child
collection, `pageInfo.hasNextPage` (as Python truthiness),
`pageInfo.endCursor`, and the list `[item["node"] for item in edges]`,
each level defaulting to empty when the key is missing. -/
def page_extract (child : String) (resp : JVal) :
    Except String (Bool × JVal × List JVal) := do
  let data ← pyGet resp "data" (JVal.obj [])
  let coll ← pyGet data child (JVal.obj [])
  let page_info ← pyGet coll "pageInfo" (JVal.obj [])
  let has_next ← pyGet page_info "hasNextPage" (JVal.bool false)
  let end_cursor ← pyGet page_info "endCursor" (JVal.str "")
  let edgesV ← pyGet coll "edges" (JVal.arr [])
  let edges ← asArr edgesV
  let nodes ← mapExcept (fun item => pyIndex item "node") edges
  pure (pyTruthy has_next, end_cursor, nodes)

/-- Loop state of one paginator run: the nodes yielded so far, the
current `end_cursor`, and whether `has_next_page` still holds (the
`while` condition). -/
structure PagState (α : Type) where
  acc : List α
  cursor : JVal
  live : Bool

/-- Embedding of the `get_cards` generator: the state after `fuel` loop
iterations against `oracle`, where `oracle n` is the JSON response to the
n-th request. `has_next_page` starts `True` and `end_cursor` starts
`None`, exactly as in the source. -/
def get_cards (oracle : Nat → JVal) : Nat → Except String (PagState JVal)
  | 0 => Except.ok ⟨[], JVal.null, true⟩
  | n + 1 =>
      match get_cards oracle n with
      | Except.error e => Except.error e
      | Except.ok st =>
          if st.live then
            match page_extract "cards" (oracle n) with
            | Except.error e => Except.error e
            | Except.ok r => Except.ok ⟨st.acc ++ r.2.2, r.2.1, r.1⟩
          else
            Except.ok st

/-- The per-entry body of the dict comprehension in
`process_table_record`: `(field["field"]["id"], field["value"])`. -/
def record_field_pair (entry : JVal) : Except String (String × JVal) := do
  let fieldObj ← pyIndex entry "field"
  let fid ← pyIndex fieldObj "id"
  let fidStr ← asStr fid
  let v ← pyIndex entry "value"
  pure (fidStr, v)

/-- Embedding of `process_table_record(record)`: build
`{field["field"]["id"]: field["value"]}` over `record.pop("record_fields", [])`,
then add `"__id": record["id"]`, and return only that dict. -/
def process_table_record (record : List (String × JVal)) :
    Except String (List (String × JVal)) :=
  let record_fields := dgetD record "record_fields" (JVal.arr [])
  match asArr record_fields with
  | Except.error e => Except.error e
  | Except.ok entries =>
      match mapExcept record_field_pair entries with
      | Except.error e => Except.error e
      | Except.ok pairs =>
          let output_fields := pairs.foldl (fun d p => dictInsert d p.1 p.2) []
          match pyIndexL record "id" with
          | Except.error e => Except.error e
          | Except.ok rid => Except.ok (dictInsert output_fields "__id" rid)

/-- The per-node processing of `get_table_records`:
`process_table_record(record["node"])` needs the node to be a dict. -/
def process_node (node : JVal) : Except String (List (String × JVal)) := do
  let o ← asObj node
  process_table_record o

def get_table_records (oracle : Nat → JVal) :
    Nat → Except String (PagState (List (String × JVal)))
  | 0 => Except.ok ⟨[], JVal.null, true⟩
  | n + 1 =>
      match get_table_records oracle n with
      | Except.error e => Except.error e
      | Except.ok st =>
          if st.live then
            match page_extract "table_records" (oracle n) with
            | Except.error e => Except.error e
            | Except.ok r =>
                match mapExcept process_node r.2.2 with
                | Except.error e => Except.error e
                | Except.ok recs => Except.ok ⟨st.acc ++ recs, r.2.1, r.1⟩
          else
            Except.ok st

/-- A server response whose page reports `hasNextPage=true` with a fixed
cursor and no edges, for the given child collection name. -/
def constPageResp (child : String) : JVal :=
  JVal.obj [("data", JVal.obj [(child, JVal.obj
    [("pageInfo", JVal.obj [("hasNextPage", JVal.bool true),
                            ("endCursor", JVal.str "abc")]),
     ("edges", JVal.arr [])])])]

theorem get_cards_dead (oracle : Nat → JVal) (n : Nat) (st : PagState JVal)
    (h : get_cards oracle n = Except.ok st) (hlive : st.live = false) :
    get_cards oracle (n + 1) = Except.ok st := by
  unfold get_cards
  rw [h]
  simp [hlive]

theorem get_table_records_dead (oracle : Nat → JVal) (n : Nat)
    (st : PagState (List (String × JVal)))
    (h : get_table_records oracle n = Except.ok st) (hlive : st.live = false) :
    get_table_records oracle (n + 1) = Except.ok st := by
  unfold get_table_records
  rw [h]
  simp [hlive]

theorem get_cards_const_live :
    ∀ n, ∃ cur, get_cards (fun _ => constPageResp "cards") n
      = Except.ok ⟨[], cur, true⟩ := by
  intro n
  induction n with
  | zero => exact ⟨JVal.null, rfl⟩
  | succ n ih =>
      obtain ⟨cur, ih⟩ := ih
      refine ⟨JVal.str "abc", ?_⟩
      have hpe : page_extract "cards" (constPageResp "cards")
          = Except.ok (true, JVal.str "abc", []) := rfl
      unfold get_cards
      rw [ih]
      simp [hpe]

theorem get_table_records_const_live :
    ∀ n, ∃ cur, get_table_records (fun _ => constPageResp "table_records") n
      = Except.ok ⟨[], cur, true⟩ := by
  intro n
  induction n with
  | zero => exact ⟨JVal.null, rfl⟩
  | succ n ih =>
      obtain ⟨cur, ih⟩ := ih
      refine ⟨JVal.str "abc", ?_⟩
      have hpe : page_extract "table_records" (constPageResp "table_records")
          = Except.ok (true, JVal.str "abc", []) := rfl
      unfold get_table_records
      rw [ih]
      simp [hpe, mapExcept]

/-- C2 counterexample: against a server that always answers
`hasNextPage=true` with the same `endCursor="abc"` (and no edges), neither
paginator ever reaches a state with the loop condition false — the claim
that they terminate on a non-advancing cursor is false on this input. -/
theorem c2_termination_counterexample :
    (¬ ∃ n st, get_cards (fun _ => constPageResp "cards") n
        = Except.ok st ∧ st.live = false) ∧
    (¬ ∃ n st, get_table_records (fun _ => constPageResp "table_records") n
        = Except.ok st ∧ st.live = false) := by
  constructor
  · rintro ⟨n, st, hok, hlive⟩
    obtain ⟨cur, h⟩ := get_cards_const_live n
    rw [h] at hok
    cases hok
    exact Bool.noConfusion hlive
  · rintro ⟨n, st, hok, hlive⟩
    obtain ⟨cur, h⟩ := get_table_records_const_live n
    rw [h] at hok
    cases hok
    exact Bool.noConfusion hlive

/-- C2 amended: the pagination loops contain no non-advancing-cursor
detection at all. Whenever every response parses and reports a truthy
`hasNextPage` — regardless of whether `endCursor` is empty or repeats —
the loop is still live after any number of iterations, so the generator
loops forever instead of terminating. -/
theorem c2_no_cursor_detection (oc ot : Nat → JVal)
    (hc : ∀ n, ∃ cur nodes,
        page_extract "cards" (oc n) = Except.ok (true, cur, nodes))
    (ht : ∀ n, ∃ cur nodes recs,
        page_extract "table_records" (ot n) = Except.ok (true, cur, nodes) ∧
        mapExcept process_node nodes = Except.ok recs) :
    (∀ m, ∃ st, get_cards oc m = Except.ok st ∧ st.live = true) ∧
    (∀ m, ∃ st, get_table_records ot m = Except.ok st ∧ st.live = true) := by
  constructor
  · intro m
    induction m with
    | zero => exact ⟨⟨[], JVal.null, true⟩, rfl, rfl⟩
    | succ m ih =>
        obtain ⟨st, hok, hlive⟩ := ih
        obtain ⟨cur, nodes, hpe⟩ := hc m
        refine ⟨⟨st.acc ++ nodes, cur, true⟩, ?_, rfl⟩
        unfold get_cards
        rw [hok]
        simp [hlive, hpe]
  · intro m
    induction m with
    | zero => exact ⟨⟨[], JVal.null, true⟩, rfl, rfl⟩
    | succ m ih =>
        obtain ⟨st, hok, hlive⟩ := ih
        obtain ⟨cur, nodes, recs, hpe, hmap⟩ := ht m
        refine ⟨⟨st.acc ++ recs, cur, true⟩, ?_, rfl⟩
        unfold get_table_records
        rw [hok]
        simp [hlive, hpe, hmap]

/-- Closed instantiation of `c2_no_cursor_detection` against the constant
non-advancing server, observed after three iterations. -/
theorem c2_no_cursor_detection_witness :
    (∃ st, get_cards (fun _ => constPageResp "cards") 3
        = Except.ok st ∧ st.live = true) ∧
    (∃ st, get_table_records (fun _ => constPageResp "table_records") 3
        = Except.ok st ∧ st.live = true) := by
  have h := c2_no_cursor_detection
      (fun _ => constPageResp "cards")
      (fun _ => constPageResp "table_records")
      (fun _ => ⟨JVal.str "abc", [], rfl⟩)
      (fun _ => ⟨JVal.str "abc", [], [], rfl, rfl⟩)
  exact ⟨h.1 3, h.2 3⟩

/-- C5: when the transport returns the empty object (its behavior on
connection failure or timeout), both paginators treat it as a terminal
empty page and stop without error, but `get_organization` raises —
`resp.get("data", None)` yields `None` and the subsequent
`.get("organization", {})` is an `AttributeError`. The
claim that no exception is raised anywhere, including the organization
fetch, fails exactly there. -/
theorem c5_empty_response_behavior :
    get_organization (JVal.obj []) = Except.error "AttributeError" ∧
    (∀ n, get_cards (fun _ => JVal.obj []) (n + 1)
        = Except.ok ⟨[], JVal.str "", false⟩) ∧
    (∀ n, get_table_records (fun _ => JVal.obj []) (n + 1)
        = Except.ok ⟨[], JVal.str "", false⟩) := by
  refine ⟨rfl, ?_, ?_⟩
  · intro n
    induction n with
    | zero => rfl
    | succ n ih => exact get_cards_dead _ (n + 1) _ ih rfl
  · intro n
    induction n with
    | zero => rfl
    | succ n ih => exact get_table_records_dead _ (n + 1) _ ih rfl

/-- A response that carries edges but no `pageInfo` object. -/
def respNoPageInfo (child : String) (v : JVal) : JVal :=
  JVal.obj [("data", JVal.obj [(child, JVal.obj
    [("edges", JVal.arr [JVal.obj [("node", v)]])])])]

/-- A response that carries `pageInfo` with `hasNextPage=true` but no
`edges` key. -/
def respNoEdges (child : String) (cur : JVal) : JVal :=
  JVal.obj [("data", JVal.obj [(child, JVal.obj
    [("pageInfo", JVal.obj [("hasNextPage", JVal.bool true),
                            ("endCursor", cur)])])])]

/-- C9 counterexample: a first response with edges but no `pageInfo` key.
The claim predicts the paginator yields no nodes from that page; in fact
`get_cards` yields the node (here `1`) and then stops. -/
theorem c9_missing_pageinfo_counterexample :
    get_cards (fun _ => respNoPageInfo "cards" (JVal.num 1)) 1
      = Except.ok ⟨[JVal.num 1], JVal.str "", false⟩ ∧
    [JVal.num 1] ≠ ([] : List JVal) := by
  exact ⟨rfl, by simp⟩

/-- C9 amended: each missing key defaults independently (`data` and the
child collection to `{}`, `pageInfo` to `{}`, `edges` to `[]`,
`hasNextPage` to `False`, `endCursor` to `""`), and no error is raised.
Consequently a fully empty response is an empty terminal page; a response
with edges but no `pageInfo` stops the traversal yet still yields every
node of that page; and a response with `hasNextPage=true` but no `edges`
yields nothing while the traversal continues. -/
theorem c9_missing_keys_defaults :
    (page_extract "cards" (JVal.obj []) = Except.ok (false, JVal.str "", []) ∧
     page_extract "table_records" (JVal.obj [])
        = Except.ok (false, JVal.str "", [])) ∧
    (∀ v, page_extract "cards" (respNoPageInfo "cards" v)
        = Except.ok (false, JVal.str "", [v])) ∧
    (∀ v, page_extract "table_records" (respNoPageInfo "table_records" v)
        = Except.ok (false, JVal.str "", [v])) ∧
    (∀ cur, page_extract "cards" (respNoEdges "cards" cur)
        = Except.ok (true, cur, [])) ∧
    (∀ cur, page_extract "table_records" (respNoEdges "table_records" cur)
        = Except.ok (true, cur, [])) ∧
    (∀ v n, get_cards (fun _ => respNoPageInfo "cards" v) (n + 1)
        = Except.ok ⟨[v], JVal.str "", false⟩) ∧
    (∀ rid n, get_table_records
          (fun _ => respNoPageInfo "table_records" (JVal.obj [("id", rid)])) (n + 1)
        = Except.ok ⟨[[("__id", rid)]], JVal.str "", false⟩) := by
  refine ⟨⟨rfl, rfl⟩, fun v => rfl, fun v => rfl, fun cur => rfl, fun cur => rfl, ?_, ?_⟩
  · intro v n
    induction n with
    | zero => rfl
    | succ n ih => exact get_cards_dead _ (n + 1) _ ih rfl
  · intro rid n
    induction n with
    | zero => rfl
    | succ n ih => exact get_table_records_dead _ (n + 1) _ ih rfl

/- ----------------------------------------------------------------------
Card normalization: the inline block of `write_pipes_and_cards`
(lines 642-651) and `get_id_from_object` (lines 619-620).
---------------------------------------------------------------------- -/

/-- Embedding of `get_id_from_object(obj, id_name)`:
`obj.pop(id_name, {}).pop("id", {})`. The first pop defaults to `{}`; the
second pop is an `AttributeError` when the popped value is not a dict.
Returns the extracted id together with the mutated dict. -/
def get_id_from_object (o : List (String × JVal)) (id_name : String) :
    Except String (JVal × List (String × JVal)) :=
  let r := dpop o id_name (JVal.obj [])
  match r.1 with
  | JVal.obj kvs => Except.ok ((dpop kvs "id" (JVal.obj [])).1, r.2)
  | _ => Except.error "AttributeError"

/-- Body of the comments loop in `write_pipes_and_cards`:
`comment["author_id"] = get_id_from_object(comment, "author")`. -/
def process_comment (comment : JVal) : Except String JVal :=
  match comment with
  | JVal.obj kvs =>
      match get_id_from_object kvs "author" with
      | Except.error e => Except.error e
      | Except.ok r => Except.ok (JVal.obj (dictInsert r.2 "author_id" r.1))
  | _ => Except.error "TypeError"

/-- The card-normalization block of `write_pipes_and_cards` as a function
of the raw card and the enclosing pipe id:
`card["pipe_id"] = pipe["id"]`;
`card["created_by"] = get_id_from_object(card, "created_by")` (note the
assigned key is `created_by`, and the pop happens before the assignment);
then every comment's `author` is replaced by `author_id` and the comments
list is stored back. -/
def normalize_card (card : List (String × JVal)) (pipe_id : JVal) :
    Except String (List (String × JVal)) :=
  let card1 := dictInsert card "pipe_id" pipe_id
  match get_id_from_object card1 "created_by" with
  | Except.error e => Except.error e
  | Except.ok r =>
      let card2 := dictInsert r.2 "created_by" r.1
      let pc := dpop card2 "comments" (JVal.arr [])
      match pc.1 with
      | JVal.arr comments =>
          match mapExcept process_comment comments with
          | Except.error e => Except.error e
          | Except.ok newComments =>
              Except.ok (dictInsert pc.2 "comments" (JVal.arr newComments))
      | _ => Except.error "TypeError"

/-- A raw table-record-fields entry as the API returns it, reduced to the
keys the code reads. -/
def mkRecordFieldEntry (ft : JVal) (e : String × JVal) : JVal :=
  JVal.obj [("value", e.2), ("field", JVal.obj [("id", JVal.str e.1), ("type", ft)])]

theorem record_field_pair_entry (ft : JVal) (e : String × JVal) :
    record_field_pair (mkRecordFieldEntry ft e) = Except.ok e := rfl

theorem mapExcept_record_fields (ft : JVal) :
    ∀ entries : List (String × JVal),
      mapExcept record_field_pair (entries.map (mkRecordFieldEntry ft))
        = Except.ok entries := by
  intro entries
  induction entries with
  | nil => rfl
  | cons e es ih => simp [mapExcept, record_field_pair_entry ft e, ih]

/-- C3 counterexample: a raw table-record node with a `created_by`
relation and one record-field, normalized by the code. The result is only
the field-id-to-value map plus `__id`; it has no `created_by_id` binding
(the claim predicts `9`) and no `table_id` binding. -/
theorem c3_policy_counterexample :
    process_table_record
      [("id", JVal.num 7), ("title", JVal.str "r"),
       ("created_by", JVal.obj [("id", JVal.num 9)]),
       ("record_fields", JVal.arr
         [JVal.obj [("value", JVal.str "v1"),
                    ("field", JVal.obj [("id", JVal.str "f1"),
                                        ("type", JVal.str "short_text")])]])]
      = Except.ok [("f1", JVal.str "v1"), ("__id", JVal.num 7)] ∧
    dget [("f1", JVal.str "v1"), ("__id", JVal.num 7)] "created_by_id"
      = (none : Option JVal) ∧
    dget [("f1", JVal.str "v1"), ("__id", JVal.num 7)] "table_id"
      = (none : Option JVal) ∧
    (none : Option JVal) ≠ some (JVal.num 9) :=
  ⟨rfl, rfl, rfl, fun h => Option.noConfusion h⟩

/-- C3 amended: for a raw table-record node of the standard shape,
normalization produces exactly the mapping from each `record_fields`
entry's field id to its value (later duplicates overwriting earlier
ones, Python-dict style) plus the synthetic `__id` bound to the record's
own id — and nothing else: `created_by` is discarded rather than renamed,
and no caller-supplied `table_id` is attached. -/
theorem c3_record_fields_map (rid t cb ft : JVal)
    (entries : List (String × JVal)) :
    process_table_record
      [("id", rid), ("title", t), ("created_by", JVal.obj [("id", cb)]),
       ("record_fields", JVal.arr (entries.map (mkRecordFieldEntry ft)))]
      = Except.ok (dictInsert
          (entries.foldl (fun d p => dictInsert d p.1 p.2) []) "__id" rid) := by
  have h := mapExcept_record_fields ft entries
  simp [process_table_record, dgetD, dget, pyIndexL, asArr, h]

/-- C4 counterexample: a raw card with `created_by = {"id": 9}` and one
comment with `author = {"id": 3}`, normalized with pipe id `5`. The
extracted creator id is stored under the key `created_by` — the
normalized card has no `created_by_id` binding at all, contradicting the
claim that the property is named `created_by_id`. -/
theorem c4_created_by_id_counterexample :
    normalize_card
      [("id", JVal.num 1), ("created_by", JVal.obj [("id", JVal.num 9)]),
       ("comments", JVal.arr
         [JVal.obj [("author", JVal.obj [("id", JVal.num 3)]),
                    ("text", JVal.str "hi")]])]
      (JVal.num 5)
      = Except.ok
          [("id", JVal.num 1), ("pipe_id", JVal.num 5),
           ("created_by", JVal.num 9),
           ("comments", JVal.arr
             [JVal.obj [("text", JVal.str "hi"),
                        ("author_id", JVal.num 3)]])] ∧
    dget [("id", JVal.num 1), ("pipe_id", JVal.num 5),
          ("created_by", JVal.num 9),
          ("comments", JVal.arr
            [JVal.obj [("text", JVal.str "hi"),
                       ("author_id", JVal.num 3)]])] "created_by_id"
      = (none : Option JVal) ∧
    (none : Option JVal) ≠ some (JVal.num 9) :=
  ⟨rfl, rfl, fun h => Option.noConfusion h⟩

/-- C4 amended: card normalization attaches the caller-supplied
`pipe_id`, replaces the `created_by` relation object by its nested id
kept under the same key `created_by` (no `created_by_id` key is ever
created for the card), and rewrites each comment by popping `author` and
adding `author_id` with the nested id; when the relation object or its
id is absent the extracted value defaults to the empty object `{}`, not
null. -/
theorem c4_card_normalization :
    (∀ (cid cb aid ctext pid : JVal),
      normalize_card
        [("id", cid), ("created_by", JVal.obj [("id", cb)]),
         ("comments", JVal.arr
           [JVal.obj [("author", JVal.obj [("id", aid)]),
                      ("text", ctext)]])] pid
        = Except.ok
            [("id", cid), ("pipe_id", pid), ("created_by", cb),
             ("comments", JVal.arr
               [JVal.obj [("text", ctext), ("author_id", aid)]])]) ∧
    (∀ (cid pid : JVal),
      normalize_card [("id", cid)] pid
        = Except.ok
            [("id", cid), ("pipe_id", pid),
             ("created_by", JVal.obj []), ("comments", JVal.arr [])]) ∧
    (∀ (cid pid : JVal),
      normalize_card [("id", cid), ("created_by", JVal.obj []),
                      ("comments", JVal.arr [])] pid
        = Except.ok
            [("id", cid), ("pipe_id", pid),
             ("created_by", JVal.obj []), ("comments", JVal.arr [])]) ∧
    (JVal.obj [] ≠ JVal.null) :=
  ⟨fun cid cb aid ctext pid => rfl,
   fun cid pid => rfl,
   fun cid pid => rfl,
   fun h => JVal.noConfusion h⟩

/- ----------------------------------------------------------------------
Date normalization (`format_date` lines 304-308,
`transform_datetimes_hook` lines 311-316).
---------------------------------------------------------------------- -/

/-- A parsed timestamp: calendar fields plus a UTC offset in minutes. -/
structure PDateTime where
  year : Nat
  month : Nat
  day : Nat
  hour : Nat
  minute : Nat
  second : Nat
  micro : Nat
  offset_minutes : Int
deriving DecidableEq, Repr

def isDigitCh (c : Char) : Bool := '0' ≤ c && c ≤ '9'

def digitVal (c : Char) : Nat := c.toNat - '0'.toNat

/-- Read exactly `n` decimal digits. -/
def readDigitsAux : Nat → Nat → List Char → Option (Nat × List Char)
  | 0, acc, cs => some (acc, cs)
  | _ + 1, _, [] => none
  | n + 1, acc, c :: cs =>
      if isDigitCh c then readDigitsAux n (acc * 10 + digitVal c) cs else none

def readFixed (n : Nat) (cs : List Char) : Option (Nat × List Char) :=
  readDigitsAux n 0 cs

def expectChar (c : Char) : List Char → Option (List Char)
  | [] => none
  | c2 :: cs => if c2 = c then some cs else none

/-- Read every leading digit (for fractional seconds). -/
def readFracDigits : List Char → List Nat × List Char
  | [] => ([], [])
  | c :: cs =>
      if isDigitCh c then
        let r := readFracDigits cs
        (digitVal c :: r.1, r.2)
      else
        ([], c :: cs)

/-- Microseconds from a fraction's digit list (first six digits, right
padded with zeros). -/
def microOfDigits (ds : List Nat) : Nat :=
  ((ds.take 6) ++ List.replicate (6 - ds.length) 0).foldl
    (fun a d => a * 10 + d) 0

/-- A trailing UTC-offset designator: nothing (naive timestamps are
treated as UTC), `Z`, or `+HH:MM` / `-HH:MM`; minutes east of UTC. -/
def readOffset : List Char → Option (Int × List Char)
  | [] => some (0, [])
  | 'Z' :: cs => some (0, cs)
  | '+' :: cs => do
      let (h, cs) ← readFixed 2 cs
      let cs ← expectChar ':' cs
      let (m, cs) ← readFixed 2 cs
      pure (((h * 60 + m : Nat) : Int), cs)
  | '-' :: cs => do
      let (h, cs) ← readFixed 2 cs
      let cs ← expectChar ':' cs
      let (m, cs) ← readFixed 2 cs
      pure (-((h * 60 + m : Nat) : Int), cs)
  | _ => none

/-- Modelled behavior of the external `pendulum.parse` collaborator on the
tap's inputs: strict ISO-8601 date or date-time with optional fractional
seconds and optional offset; anything else fails (pendulum raises
`ParserError`). -/
def pendulum_parse (s : String) : Option PDateTime := do
  let cs := s.data
  let (y, cs) ← readFixed 4 cs
  let cs ← expectChar '-' cs
  let (mo, cs) ← readFixed 2 cs
  let cs ← expectChar '-' cs
  let (d, cs) ← readFixed 2 cs
  if mo < 1 || 12 < mo || d < 1 || 31 < d then none
  else
    match cs with
    | [] => some ⟨y, mo, d, 0, 0, 0, 0, 0⟩
    | 'T' :: cs => do
        let (h, cs) ← readFixed 2 cs
        let cs ← expectChar ':' cs
        let (mi, cs) ← readFixed 2 cs
        let cs ← expectChar ':' cs
        let (sec, cs) ← readFixed 2 cs
        if 23 < h || 59 < mi || 59 < sec then none
        else do
          let fr :=
            match cs with
            | '.' :: cs2 =>
                let r := readFracDigits cs2
                (microOfDigits r.1, r.2)
            | _ => ((0 : Nat), cs)
          let (off, cs3) ← readOffset fr.2
          match cs3 with
          | [] => some ⟨y, mo, d, h, mi, sec, fr.1, off⟩
          | _ => none
    | _ => none

/-- Days since 1970-01-01 of a proleptic Gregorian civil date
(Hinnant's algorithm, truncating division as in the original). -/
def daysFromCivil (y m d : Int) : Int :=
  let y2 := if m ≤ 2 then y - 1 else y
  let era := (if 0 ≤ y2 then y2 else y2 - 399) / 400
  let yoe := y2 - era * 400
  let mp := if 2 < m then m - 3 else m + 9
  let doy := (153 * mp + 2) / 5 + d - 1
  let doe := yoe * 365 + yoe / 4 - yoe / 100 + doy
  era * 146097 + doe - 719468

/-- Civil date from days since 1970-01-01 (Hinnant's algorithm). -/
def civilFromDays (z0 : Int) : Int × Int × Int :=
  let z := z0 + 719468
  let era := (if 0 ≤ z then z else z - 146096) / 146097
  let doe := z - era * 146097
  let yoe := (doe - doe / 1460 + doe / 36524 - doe / 146096) / 365
  let y := yoe + era * 400
  let doy := doe - (365 * yoe + yoe / 4 - yoe / 100)
  let mp := (5 * doy + 2) / 153
  let d := doy - (153 * mp + 2) / 5 + 1
  let m := if mp < 10 then mp + 3 else mp - 9
  (if m ≤ 2 then y + 1 else y, m, d)

/-- `dt.in_timezone("UTC")`: shift the wall-clock time by the parsed
offset, normalizing through seconds-since-epoch. -/
def in_timezone_utc (dt : PDateTime) : PDateTime :=
  let total : Int :=
    daysFromCivil dt.year dt.month dt.day * 86400
      + dt.hour * 3600 + dt.minute * 60 + dt.second
      - dt.offset_minutes * 60
  let days := total.ediv 86400
  let rem := (total.emod 86400).toNat
  let c := civilFromDays days
  ⟨c.1.toNat, c.2.1.toNat, c.2.2.toNat,
   rem / 3600, rem % 3600 / 60, rem % 60, dt.micro, 0⟩

/-- Zero-pad a natural number to the given width. -/
def zpad (w : Nat) (n : Nat) : String :=
  let s := toString n
  String.mk (List.replicate (w - s.length) '0') ++ s

/-- `singer.utils.strftime`: the fixed `%Y-%m-%dT%H:%M:%S.%fZ` format. -/
def singer_strftime (dt : PDateTime) : String :=
  zpad 4 dt.year ++ "-" ++ zpad 2 dt.month ++ "-" ++ zpad 2 dt.day
    ++ "T" ++ zpad 2 dt.hour ++ ":" ++ zpad 2 dt.minute ++ ":"
    ++ zpad 2 dt.second ++ "." ++ zpad 6 dt.micro ++ "Z"

/-- Embedding of `format_date(date)`: falsy input (None, `""`) falls
through and returns `None`; otherwise the string is parsed with pendulum
(raising on failure — there is no try/except in the source), converted to
UTC and formatted. -/
def format_date (date : JVal) : Except String JVal :=
  if pyTruthy date then
    match date with
    | JVal.str s =>
        match pendulum_parse s with
        | some dt => Except.ok (JVal.str (singer_strftime (in_timezone_utc dt)))
        | none => Except.error "ParserError"
    | _ => Except.error "TypeError"
  else
    Except.ok JVal.null

/-- The condition `schema.get("format", "") == "date-time"`. -/
def schema_format_is_datetime (schema : List (String × JVal)) : Bool :=
  match dgetD schema "format" (JVal.str "") with
  | JVal.str f => f == "date-time"
  | _ => false

/-- Embedding of `transform_datetimes_hook(data, typ, schema)`. -/
def transform_datetimes_hook (data : JVal) (typ : String)
    (schema : List (String × JVal)) : Except String JVal :=
  if ["string"].contains typ && schema_format_is_datetime schema then
    format_date data
  else
    Except.ok data

/-- C6 counterexample: on the unparseable input `"not-a-date"` the code
raises a parse error that nothing catches — it does not yield null with
a recorded warning. -/
theorem c6_unparseable_counterexample :
    format_date (JVal.str "not-a-date") = Except.error "ParserError" ∧
    (Except.error "ParserError" : Except String JVal) ≠ Except.ok JVal.null :=
  ⟨rfl, fun h => Except.noConfusion h⟩

/-- C6 amended: a parseable timestamp is re-emitted in UTC fixed-offset
RFC3339 form (`"2020-01-15T10:00:00-05:00"` becomes
`"2020-01-15T15:00:00.000000Z"`); null or empty input passes through as
null; but unparseable input such as `"not-a-date"` raises an uncaught
parse error that aborts the run — it is not converted to null plus a
warning. -/
theorem c6_date_normalization :
    format_date JVal.null = Except.ok JVal.null ∧
    format_date (JVal.str "") = Except.ok JVal.null ∧
    format_date (JVal.str "2020-01-15T10:00:00-05:00")
      = Except.ok (JVal.str "2020-01-15T15:00:00.000000Z") ∧
    format_date (JVal.str "not-a-date") = Except.error "ParserError" ∧
    transform_datetimes_hook (JVal.str "2020-01-15T10:00:00-05:00") "string"
        [("format", JVal.str "date-time")]
      = Except.ok (JVal.str "2020-01-15T15:00:00.000000Z") ∧
    transform_datetimes_hook (JVal.str "2020-01-15T10:00:00-05:00") "integer"
        [("format", JVal.str "date-time")]
      = Except.ok (JVal.str "2020-01-15T10:00:00-05:00") ∧
    transform_datetimes_hook JVal.null "string"
        [("format", JVal.str "date-time")]
      = Except.ok JVal.null :=
  ⟨rfl, rfl, rfl, rfl, rfl, rfl, rfl⟩

/- ----------------------------------------------------------------------
Sync orchestration (`sync_organization` lines 674-685, `write_members`
lines 604-616, `write_pipes_and_cards` lines 623-651,
`write_tables_and_records` lines 654-671), modelled as the sequence of
singer messages emitted: `write_schema` and `write_record` events tagged
with their stream. The card/table-record lists stand for the nodes the
paginators yield (their behavior is modelled by `get_cards` and
`get_table_records` above); record contents are irrelevant to ordering. -/

inductive Msg where
  | schema (stream : String)
  | record (stream : String)
deriving DecidableEq, Repr

/-- The dynamic stream name `"table_{}".format(table["id"])`. -/
def table_stream (id : String) : String := "table_" ++ id

/-- Message trace of `write_members(members)`: the members schema, then
one record per member. -/
def write_members_msgs (members : List JVal) : List Msg :=
  Msg.schema "members" :: members.map (fun _ => Msg.record "members")

/-- Message trace of `write_pipes_and_cards(pipes)`: the pipes and cards
schemas, then per pipe one pipe record followed by that pipe's cards. -/
def write_pipes_and_cards_msgs (pipes : List (String × List JVal)) : List Msg :=
  Msg.schema "pipes" :: Msg.schema "cards" ::
    pipes.flatMap (fun p => Msg.record "pipes" :: p.2.map (fun _ => Msg.record "cards"))

/-- Message trace of `write_tables_and_records(tables)`: the tables
schema, then per table one table record, that table's dynamic schema, and
its records. -/
def write_tables_and_records_msgs (tables : List (String × List JVal)) : List Msg :=
  Msg.schema "tables" ::
    tables.flatMap (fun t => Msg.record "tables" :: Msg.schema (table_stream t.1) ::
      t.2.map (fun _ => Msg.record (table_stream t.1)))

/-- Message trace of `sync_organization`: members, then pipes+cards, then
tables+records. -/
def sync_organization_msgs (members : List JVal)
    (pipes tables : List (String × List JVal)) : List Msg :=
  write_members_msgs members ++ write_pipes_and_cards_msgs pipes
    ++ write_tables_and_records_msgs tables

/-- The stream names of the schema messages of a trace, in order. -/
def schemata : List Msg → List String
  | [] => []
  | Msg.schema s :: rest => s :: schemata rest
  | Msg.record _ :: rest => schemata rest

/-- Check that every record message is preceded by a schema message of
its stream, given the set of streams whose schema was already emitted. -/
def wellOrdered : List Msg → List String → Bool
  | [], _ => true
  | Msg.schema s :: rest, seen => wellOrdered rest (s :: seen)
  | Msg.record s :: rest, seen => seen.contains s && wellOrdered rest seen

/-- Schemas already emitted after a trace prefix. -/
def seenAfter : List Msg → List String → List String
  | [], seen => seen
  | Msg.schema s :: rest, seen => seenAfter rest (s :: seen)
  | Msg.record _ :: rest, seen => seenAfter rest seen

theorem wellOrdered_append :
    ∀ (a b : List Msg) (seen : List String),
      wellOrdered (a ++ b) seen
        = (wellOrdered a seen && wellOrdered b (seenAfter a seen)) := by
  intro a
  induction a with
  | nil => intro b seen; simp [wellOrdered, seenAfter]
  | cons m rest ih =>
      intro b seen
      cases m with
      | schema s => simp [wellOrdered, seenAfter, ih]
      | record s =>
          simp [wellOrdered, seenAfter, ih, Bool.and_assoc]

theorem seenAfter_append :
    ∀ (a b : List Msg) (sn : List String),
      seenAfter (a ++ b) sn = seenAfter b (seenAfter a sn) := by
  intro a
  induction a with
  | nil => intro b sn; rfl
  | cons m rest ih =>
      intro b sn
      cases m with
      | schema s => simp [seenAfter, ih]
      | record s => simp [seenAfter, ih]

theorem wellOrdered_records {α : Type} (xs : List α) (s : String) :
    ∀ seen : List String, seen.contains s = true →
      wellOrdered (xs.map (fun _ => Msg.record s)) seen = true := by
  induction xs with
  | nil => intro seen _; rfl
  | cons x xs ih =>
      intro seen h
      simp only [List.map_cons, wellOrdered, h, ih seen h, Bool.true_and]

theorem seenAfter_records {α : Type} (xs : List α) (s : String) :
    ∀ seen : List String, seenAfter (xs.map (fun _ => Msg.record s)) seen = seen := by
  induction xs with
  | nil => intro seen; rfl
  | cons x xs ih => intro seen; simp only [List.map_cons, seenAfter, ih]

theorem wellOrdered_pipes_bind (pipes : List (String × List JVal)) :
    ∀ seen : List String, seen.contains "pipes" = true →
      seen.contains "cards" = true →
      wellOrdered (pipes.flatMap (fun p => Msg.record "pipes" ::
        p.2.map (fun _ => Msg.record "cards"))) seen = true := by
  induction pipes with
  | nil => intro seen _ _; rfl
  | cons p pipes ih =>
      intro seen hp hc
      rw [List.flatMap_cons]
      rw [show (Msg.record "pipes" :: p.2.map (fun _ => Msg.record "cards")) ++ _
          = Msg.record "pipes" :: (p.2.map (fun _ => Msg.record "cards") ++ _) from rfl]
      simp only [wellOrdered, hp, Bool.true_and]
      rw [wellOrdered_append, wellOrdered_records p.2 "cards" seen hc,
          seenAfter_records p.2 "cards" seen, ih seen hp hc]
      rfl

theorem seen_contains_mono (s : String) :
    ∀ (seen : List String) (t : String), seen.contains s = true →
      (t :: seen).contains s = true := by
  intro seen t h
  simp only [List.contains_cons, h, Bool.or_true]

theorem wellOrdered_tables_bind (tables : List (String × List JVal)) :
    ∀ seen : List String, seen.contains "tables" = true →
      wellOrdered (tables.flatMap (fun t => Msg.record "tables" ::
        Msg.schema (table_stream t.1) ::
        t.2.map (fun _ => Msg.record (table_stream t.1)))) seen = true := by
  induction tables with
  | nil => intro seen _; rfl
  | cons t tables ih =>
      intro seen ht
      rw [List.flatMap_cons]
      rw [show (Msg.record "tables" :: Msg.schema (table_stream t.1) ::
            t.2.map (fun _ => Msg.record (table_stream t.1))) ++ _
          = Msg.record "tables" :: Msg.schema (table_stream t.1) ::
            (t.2.map (fun _ => Msg.record (table_stream t.1)) ++ _) from rfl]
      simp only [wellOrdered, ht, Bool.true_and]
      have hts : (table_stream t.1 :: seen).contains (table_stream t.1) = true := by
        simp [List.contains_cons]
      rw [wellOrdered_append,
          wellOrdered_records t.2 (table_stream t.1) _ hts,
          seenAfter_records t.2 (table_stream t.1) _,
          ih (table_stream t.1 :: seen) (seen_contains_mono "tables" seen _ ht)]
      rfl

theorem schemata_append :
    ∀ a b : List Msg, schemata (a ++ b) = schemata a ++ schemata b := by
  intro a
  induction a with
  | nil => intro b; rfl
  | cons m rest ih =>
      intro b
      cases m with
      | schema s => simp [schemata, ih]
      | record s => simp [schemata, ih]

theorem schemata_records {α : Type} (s : String) :
    ∀ xs : List α, schemata (xs.map (fun _ => Msg.record s)) = [] := by
  intro xs
  induction xs with
  | nil => rfl
  | cons x xs ih => simp only [List.map_cons, schemata, ih]

theorem schemata_pipes_flat :
    ∀ pipes : List (String × List JVal),
      schemata (pipes.flatMap (fun p => Msg.record "pipes" ::
        p.2.map (fun _ => Msg.record "cards"))) = [] := by
  intro pipes
  induction pipes with
  | nil => rfl
  | cons p pipes ih =>
      rw [List.flatMap_cons]
      rw [show (Msg.record "pipes" :: p.2.map (fun _ => Msg.record "cards")) ++ _
          = Msg.record "pipes" :: (p.2.map (fun _ => Msg.record "cards") ++ _) from rfl]
      simp only [schemata, schemata_append, schemata_records, ih, List.append_nil]

theorem schemata_tables_flat :
    ∀ tables : List (String × List JVal),
      schemata (tables.flatMap (fun t => Msg.record "tables" ::
        Msg.schema (table_stream t.1) ::
        t.2.map (fun _ => Msg.record (table_stream t.1))))
      = tables.map (fun t => table_stream t.1) := by
  intro tables
  induction tables with
  | nil => rfl
  | cons t tables ih =>
      rw [List.flatMap_cons]
      rw [show (Msg.record "tables" :: Msg.schema (table_stream t.1) ::
            t.2.map (fun _ => Msg.record (table_stream t.1))) ++ _
          = Msg.record "tables" :: Msg.schema (table_stream t.1) ::
            (t.2.map (fun _ => Msg.record (table_stream t.1)) ++ _) from rfl]
      simp only [schemata, schemata_append, schemata_records, ih, List.map_cons,
        List.nil_append]

theorem table_stream_data (id : String) :
    (table_stream id).data = 't' :: 'a' :: 'b' :: 'l' :: 'e' :: '_' :: id.data := by
  cases id
  rfl

theorem table_stream_injective (a b : String)
    (h : table_stream a = table_stream b) : a = b := by
  have h2 := congrArg String.data h
  rw [table_stream_data, table_stream_data] at h2
  injection h2 with _ h2
  injection h2 with _ h2
  injection h2 with _ h2
  injection h2 with _ h2
  injection h2 with _ h2
  injection h2 with _ h2
  cases a
  cases b
  cases h2
  rfl

theorem table_stream_ne_members (id : String) : table_stream id ≠ "members" := by
  intro h
  have h2 := congrArg String.data h
  rw [table_stream_data, show "members".data = ['m','e','m','b','e','r','s'] from rfl] at h2
  injection h2 with h3 h4
  exact absurd h3 (by decide)

theorem table_stream_ne_pipes (id : String) : table_stream id ≠ "pipes" := by
  intro h
  have h2 := congrArg String.data h
  rw [table_stream_data, show "pipes".data = ['p','i','p','e','s'] from rfl] at h2
  injection h2 with h3 h4
  exact absurd h3 (by decide)

theorem table_stream_ne_cards (id : String) : table_stream id ≠ "cards" := by
  intro h
  have h2 := congrArg String.data h
  rw [table_stream_data, show "cards".data = ['c','a','r','d','s'] from rfl] at h2
  injection h2 with h3 h4
  exact absurd h3 (by decide)

theorem table_stream_ne_tables (id : String) : table_stream id ≠ "tables" := by
  intro h
  have h2 := congrArg String.data h
  rw [table_stream_data, show "tables".data = ['t','a','b','l','e','s'] from rfl] at h2
  injection h2 with h3 h2
  injection h2 with h3 h2
  injection h2 with h3 h2
  injection h2 with h3 h2
  injection h2 with h3 h2
  injection h2 with h3 h2
  exact absurd h3 (by decide)

theorem table_streams_nodup (tables : List (String × List JVal))
    (h : (tables.map Prod.fst).Nodup) :
    (tables.map (fun t => table_stream t.1)).Nodup := by
  have he : tables.map (fun t => table_stream t.1)
      = (tables.map Prod.fst).map table_stream := by
    simp [List.map_map]
  rw [he]
  exact List.Nodup.map (fun a b hab => table_stream_injective a b hab) h

theorem static_not_in_table_streams (tables : List (String × List JVal)) :
    ∀ s, s ∈ ["members", "pipes", "cards", "tables"] →
      s ∉ tables.map (fun t => table_stream t.1) := by
  intro s hs hmem
  rw [List.mem_map] at hmem
  obtain ⟨t, _, ht⟩ := hmem
  simp only [List.mem_cons, List.not_mem_nil, or_false] at hs
  rcases hs with h | h | h | h
  · exact table_stream_ne_members t.1 (h ▸ ht)
  · exact table_stream_ne_pipes t.1 (h ▸ ht)
  · exact table_stream_ne_cards t.1 (h ▸ ht)
  · exact table_stream_ne_tables t.1 (h ▸ ht)

theorem count_schema_eq_schemata (s : String) :
    ∀ trace : List Msg, trace.count (Msg.schema s) = (schemata trace).count s := by
  intro trace
  induction trace with
  | nil => rfl
  | cons m rest ih =>
      cases m with
      | schema s2 =>
          by_cases h : s2 = s
          · subst h
            simp [schemata, List.count_cons, ih]
          · simp [schemata, List.count_cons, ih, h]
      | record s2 => simp [schemata, List.count_cons, ih]

theorem write_members_wellOrdered (members : List JVal) (seen : List String) :
    wellOrdered (write_members_msgs members) seen = true := by
  simp only [write_members_msgs, wellOrdered]
  exact wellOrdered_records members "members" ("members" :: seen)
    (by simp [List.contains_cons])

theorem write_members_seenAfter (members : List JVal) (seen : List String) :
    seenAfter (write_members_msgs members) seen = "members" :: seen := by
  simp only [write_members_msgs, seenAfter]
  exact seenAfter_records members "members" ("members" :: seen)

theorem write_pipes_wellOrdered (pipes : List (String × List JVal))
    (seen : List String) :
    wellOrdered (write_pipes_and_cards_msgs pipes) seen = true := by
  simp only [write_pipes_and_cards_msgs, wellOrdered]
  exact wellOrdered_pipes_bind pipes ("cards" :: "pipes" :: seen)
    (by simp [List.contains_cons]) (by simp [List.contains_cons])

theorem flatMap_records_seenAfter (pipes : List (String × List JVal))
    (seen : List String) :
    seenAfter (pipes.flatMap (fun p => Msg.record "pipes" ::
      p.2.map (fun _ => Msg.record "cards"))) seen = seen := by
  induction pipes with
  | nil => rfl
  | cons p pipes ih =>
      rw [List.flatMap_cons]
      rw [show (Msg.record "pipes" :: p.2.map (fun _ => Msg.record "cards")) ++ _
          = Msg.record "pipes" :: (p.2.map (fun _ => Msg.record "cards") ++ _) from rfl]
      simp only [seenAfter]
      rw [seenAfter_append, seenAfter_records p.2 "cards" seen, ih]

theorem write_pipes_seenAfter (pipes : List (String × List JVal))
    (seen : List String) :
    seenAfter (write_pipes_and_cards_msgs pipes) seen
      = "cards" :: "pipes" :: seen := by
  simp only [write_pipes_and_cards_msgs, seenAfter]
  exact flatMap_records_seenAfter pipes ("cards" :: "pipes" :: seen)

theorem write_tables_wellOrdered (tables : List (String × List JVal))
    (seen : List String) :
    wellOrdered (write_tables_and_records_msgs tables) seen = true := by
  simp only [write_tables_and_records_msgs, wellOrdered]
  exact wellOrdered_tables_bind tables ("tables" :: seen)
    (by simp [List.contains_cons])

theorem schemata_write_members (members : List JVal) :
    schemata (write_members_msgs members) = ["members"] := by
  simp only [write_members_msgs, schemata, schemata_records]

theorem schemata_write_pipes (pipes : List (String × List JVal)) :
    schemata (write_pipes_and_cards_msgs pipes) = ["pipes", "cards"] := by
  simp only [write_pipes_and_cards_msgs, schemata, schemata_pipes_flat]

theorem schemata_write_tables (tables : List (String × List JVal)) :
    schemata (write_tables_and_records_msgs tables)
      = "tables" :: tables.map (fun t => table_stream t.1) := by
  simp only [write_tables_and_records_msgs, schemata, schemata_tables_flat]

/-- C10: in every sync run the emitted message trace lists the stream
schemas in the fixed order members, pipes, cards, tables, then one
dynamic `table_<id>` schema per table; with distinct table ids every
schema message occurs at most once (exactly once for the listed
streams); and no stream's record message ever precedes that stream's
schema message. Pipes interleave with their cards and tables with their
records by construction of the trace. -/
theorem c10_sync_order (members : List JVal)
    (pipes tables : List (String × List JVal))
    (hnd : (tables.map Prod.fst).Nodup) :
    schemata (sync_organization_msgs members pipes tables)
      = "members" :: "pipes" :: "cards" :: "tables" ::
          tables.map (fun t => table_stream t.1) ∧
    (schemata (sync_organization_msgs members pipes tables)).Nodup ∧
    (∀ s, (sync_organization_msgs members pipes tables).count (Msg.schema s) ≤ 1) ∧
    wellOrdered (sync_organization_msgs members pipes tables) [] = true := by
  have hsch : schemata (sync_organization_msgs members pipes tables)
      = "members" :: "pipes" :: "cards" :: "tables" ::
          tables.map (fun t => table_stream t.1) := by
    unfold sync_organization_msgs
    rw [schemata_append, schemata_append, schemata_write_members,
      schemata_write_pipes, schemata_write_tables]
    rfl
  have hnodup : (schemata (sync_organization_msgs members pipes tables)).Nodup := by
    rw [hsch]
    have hts := table_streams_nodup tables hnd
    have hni := static_not_in_table_streams tables
    rw [List.nodup_cons, List.nodup_cons, List.nodup_cons, List.nodup_cons]
    refine ⟨?_, ?_, ?_, ?_, hts⟩
    · simp only [List.mem_cons]
      push_neg
      refine ⟨by decide, by decide, by decide, hni "members" (by decide)⟩
    · simp only [List.mem_cons]
      push_neg
      refine ⟨by decide, by decide, hni "pipes" (by decide)⟩
    · simp only [List.mem_cons]
      push_neg
      refine ⟨by decide, hni "cards" (by decide)⟩
    · exact hni "tables" (by decide)
  refine ⟨hsch, hnodup, ?_, ?_⟩
  · intro s
    rw [count_schema_eq_schemata]
    exact List.nodup_iff_count_le_one.mp hnodup s
  · unfold sync_organization_msgs
    rw [wellOrdered_append, wellOrdered_append, seenAfter_append,
      write_members_wellOrdered, write_pipes_wellOrdered,
      write_members_seenAfter, write_pipes_seenAfter, write_tables_wellOrdered]
    rfl

/-- Closed instantiation of `c10_sync_order` at a small concrete
organization with one member, one pipe with one card, and two tables. -/
theorem c10_sync_order_witness :
    schemata (sync_organization_msgs [JVal.null] [("p1", [JVal.null])]
        [("t1", [JVal.null]), ("t2", [])])
      = ["members", "pipes", "cards", "tables", "table_t1", "table_t2"] ∧
    (sync_organization_msgs [JVal.null] [("p1", [JVal.null])]
        [("t1", [JVal.null]), ("t2", [])]).count (Msg.schema "cards") ≤ 1 ∧
    wellOrdered (sync_organization_msgs [JVal.null] [("p1", [JVal.null])]
        [("t1", [JVal.null]), ("t2", [])]) [] = true := by
  have h := c10_sync_order [JVal.null] [("p1", [JVal.null])]
      [("t1", [JVal.null]), ("t2", [])] (by decide)
  exact ⟨h.1, h.2.2.1 "cards", h.2.2.2⟩
